import Mathlib

/-!
Verification of the `quote-use` token-stream preprocessor.

This file shallowly embeds the core of the repository — the declaration
parser (`quote-use-macros/src/use_parser.rs`), the symbol-table assembly
(`impl ToTokens for QuoteUse` in `quote-use-macros/src/lib.rs`) and the
recursive token rewriter (`replace_in_group` in the same file) — as
executable Lean definitions, and proves the specification's testable
properties about them.

Proc-macro token streams are modelled as lists of token trees: an
identifier carries its text, a punctuation character carries its spacing
(`Alone`/`Joint`), a literal carries its text, and a group carries a
delimiter kind and the inner stream.  Source spans are not modelled: all
the operations under verification compare identifiers by text only.
-/

namespace QU

/-- `proc_macro2::Delimiter`. -/
inductive Delimiter
  | parenthesis
  | brace
  | bracket
  | none
deriving DecidableEq, Repr

/-- `proc_macro2::Spacing`. -/
inductive Spacing
  | alone
  | joint
deriving DecidableEq, Repr

/-- `proc_macro2::TokenTree` (spans dropped; a `TokenStream` is a
`List TokenTree`). -/
inductive TokenTree
  | ident (s : String)
  | punct (c : Char) (spacing : Spacing)
  | literal (s : String)
  | group (d : Delimiter) (ts : List TokenTree)

/-- The two colons produced by rendering `::` with `quote!`: a joint-spaced
colon followed by an alone-spaced one. -/
def colon2 : List TokenTree := [.punct ':' .joint, .punct ':' .alone]

/-- `use_parser.rs`: `enum IdentOrPounded { Ident(Ident), Pounded(Token![#], TokenTree) }`.
The `Token![#]` of the `Pounded` variant carries no information beyond its
span, so only the following token tree is kept. -/
inductive IdentOrPounded
  | ident (s : String)
  | pounded (tt : TokenTree)

namespace IdentOrPounded

/-- `IdentOrPounded::is_self`. -/
def is_self : IdentOrPounded → Bool
  | .ident s => s == "self"
  | .pounded _ => false

/-- `IdentOrPounded::is_ident`. -/
def is_ident : IdentOrPounded → Bool
  | .ident _ => true
  | .pounded _ => false

/-- `impl ToTokens for IdentOrPounded`: an ident renders as itself, a
pounded segment renders as `#` followed by its token. -/
def toTokens : IdentOrPounded → List TokenTree
  | .ident s => [.ident s]
  | .pounded tt => [.punct '#' .alone, tt]

end IdentOrPounded

/-- `use_parser.rs`: `struct Path(Vec<IdentOrPounded>)`. -/
abbrev Path := List IdentOrPounded

/-- `impl ToTokens for Path`: a leading `::` when the first segment is an
ident (so bindings expand into absolute paths), then the segments joined by
`::`.  The source `expect`s a non-empty path; the empty case (reachable
only through the parser bug exhibited below) is rendered as nothing here. -/
def Path.toTokens : Path → List TokenTree
  | [] => []
  | first :: tail =>
    (if first.is_ident then colon2 else []) ++ first.toTokens
      ++ tail.flatMap (fun seg => colon2 ++ seg.toTokens)

/-- `use_parser.rs`: `struct Use(pub Path, pub Ident)` — a binding of the
ident (field `.1`) to the path (field `.0`). -/
structure Use where
  path : Path
  ident : String

/-- The rewriter's lexical state, `enum State { Path, Pound, Normal }`
inside `replace_in_group` (`quote-use-macros/src/lib.rs:90-95`). -/
inductive RwState
  | path
  | pound
  | normal
deriving DecidableEq, Repr

/-- `replace_in_group` (`quote-use-macros/src/lib.rs:88-135`): the
recursive token rewriter.  Arms in source order: an ident in `Normal`
state is looked up (first match on the bound ident) and replaced by the
rendered path on a hit; a joint-spaced `:` moves to `Path`; any other `:`
leaves the state unchanged; `#` moves to `Pound`; a group is recursed into
with a fresh `Normal` state and re-wrapped with the same delimiter (a
`None` delimiter is spliced without wrapping), the outer state unchanged;
every other token resets the state to `Normal` and passes through. -/
def replace_in_group (uses : List Use) (st : RwState) (ts : List TokenTree) :
    List TokenTree :=
  match st, ts with
  | _, [] => []
  | .normal, .ident s :: rest =>
    match uses.find? (fun u => u.ident == s) with
    | some u => u.path.toTokens ++ replace_in_group uses .normal rest
    | Option.none => .ident s :: replace_in_group uses .normal rest
  | _, .punct ':' .joint :: rest => .punct ':' .joint :: replace_in_group uses .path rest
  | st, .punct ':' sp :: rest => .punct ':' sp :: replace_in_group uses st rest
  | _, .punct '#' sp :: rest => .punct '#' sp :: replace_in_group uses .pound rest
  | st, .group d inner :: rest =>
    (match d with
     | .parenthesis => [.group .parenthesis (replace_in_group uses .normal inner)]
     | .brace => [.group .brace (replace_in_group uses .normal inner)]
     | .bracket => [.group .bracket (replace_in_group uses .normal inner)]
     | .none => replace_in_group uses .normal inner)
      ++ replace_in_group uses st rest
  | _, .ident s :: rest => .ident s :: replace_in_group uses .normal rest
  | _, .punct c sp :: rest => .punct c sp :: replace_in_group uses .normal rest
  | _, .literal s :: rest => .literal s :: replace_in_group uses .normal rest
termination_by sizeOf ts
decreasing_by all_goals (simp_wf <;> omega)

/-- The explicit bindings kept after removing the two sentinel declarations
(`impl ToTokens for QuoteUse`, `quote-use-macros/src/lib.rs:65-79`: the
`filter` that drops every `Use` whose bound ident is `no_prelude` or
`no_std`, keyed on the ident alone). -/
def keptUses (uses : List Use) : List Use :=
  uses.filter (fun u => !(u.ident == "no_prelude") && !(u.ident == "no_std"))

/-- The symbol table assembled by `impl ToTokens for QuoteUse`
(`quote-use-macros/src/lib.rs:60-84`): sentinel declarations are filtered
out while recording which sentinels occurred; unless `no_prelude` occurred,
the prelude bindings (a build-configuration-dependent list, abbreviated
here as the function `preludeOf` of the `std` flag, which is `false` iff a
`no_std` sentinel occurred) are appended after the explicit bindings. -/
def QuoteUse.symbolTable (uses : List Use) (preludeOf : Bool → List Use) : List Use :=
  let keepPrelude := !uses.any (fun u => u.ident == "no_prelude")
  let keepStd := !uses.any (fun u => u.ident == "no_std")
  keptUses uses ++ (if keepPrelude then preludeOf keepStd else [])

/-- The full rewriting pipeline of `impl ToTokens for QuoteUse`: build the
symbol table, then run `replace_in_group` on the tail (initial state
`Normal`). -/
def QuoteUse.toTokens (uses : List Use) (preludeOf : Bool → List Use)
    (tail : List TokenTree) : List TokenTree :=
  replace_in_group (QuoteUse.symbolTable uses preludeOf) .normal tail

/-- Parser outcomes: a `syn::Error` (a reported syntax error carrying a
source location, which is not modelled) versus a Rust `panic` raised by an
`expect` on a violated internal invariant. -/
inductive PErr
  | syn (msg : String)
  | panic (msg : String)
deriving DecidableEq, Repr

namespace Path

/-- `Path::push`. -/
def push (p : Path) (seg : IdentOrPounded) : Path := p ++ [seg]

/-- `Path::pop_self`: remove a trailing `self` segment if present,
reporting whether it did. -/
def pop_self (p : Path) : Bool × Path :=
  match p.getLast? with
  | some seg => if seg.is_self then (true, p.dropLast) else (false, p)
  | Option.none => (false, p)

/-- `Path::get_ident`: the trailing segment as an ident.  The source
`expect`s a non-empty path (a panic, not a `syn::Error`) and reports a
syntax error when the trailing segment is pounded. -/
def get_ident (p : Path) : Except PErr String :=
  match p.getLast? with
  | Option.none => .error (.panic "path should contain a segment")
  | some (.ident s) => .ok s
  | some (.pounded _) => .error (.syn "expected ident as last path segment")

/-- `Path::pop_ident`: pop the trailing segment and return it as an ident;
same failure modes as `get_ident`. -/
def pop_ident (p : Path) : Except PErr (String × Path) :=
  match p.getLast? with
  | Option.none => .error (.panic "path should contain a segment")
  | some (.ident s) => .ok (s, p.dropLast)
  | some (.pounded _) => .error (.syn "expected ident as last path segment")

/-- `Path::pop`: drop the trailing segment, panicking on an empty path. -/
def popE (p : Path) : Except PErr Path :=
  match p with
  | [] => .error (.panic "path should contain at least one segment")
  | _ => .ok p.dropLast

end Path

/-- `impl Parse for IdentOrPounded`: any identifier (including keywords,
via `Ident::parse_any`), otherwise `#` followed by one arbitrary token
tree.  Returns the parsed segment and the remaining input. -/
def IdentOrPounded.parse : List TokenTree → Except PErr (IdentOrPounded × List TokenTree)
  | .ident s :: rest => .ok (.ident s, rest)
  | .punct '#' _ :: rest =>
    match rest with
    | t :: rest2 => .ok (.pounded t, rest2)
    | [] => .error (.syn "unexpected end of input")
  | _ => .error (.syn "expected identifier or pound")

/-- The `end` closure of `parse_use_segment` (`use_parser.rs:116-126`): a
peeked `;` ends a top-level chain but is a syntax error inside a brace
group; an empty input always ends the chain. -/
def chainEnd (inner : Bool) (input : List TokenTree) : Except PErr Bool :=
  match input with
  | .punct ';' _ :: _ =>
    if inner then .error (.syn "expected ident, comma, double colon or brace") else .ok true
  | [] => .ok true
  | _ => .ok false

/-- Consume a `,` if it is next (`<Token![,]>::parse(input).is_ok()`). -/
def parseComma : List TokenTree → Option (List TokenTree)
  | .punct ',' _ :: rest => some rest
  | _ => Option.none

/-- Consume the `as` keyword if it is next. -/
def parseAs : List TokenTree → Option (List TokenTree)
  | .ident "as" :: rest => some rest
  | _ => Option.none

/-- Consume a `::` (a joint-spaced colon and its second colon), required
(`<Token![::]>::parse(input)?`). -/
def parseColon2 : List TokenTree → Except PErr (List TokenTree)
  | .punct ':' .joint :: .punct ':' _ :: rest => .ok rest
  | _ => .error (.syn "expected double colon")

/-- Parse the alias identifier after `as` (`input.parse::<Ident>()`; the
source rejects keywords here, a case no claim exercises). -/
def parseAliasIdent : List TokenTree → Except PErr (String × List TokenTree)
  | .ident s :: rest => .ok (s, rest)
  | _ => .error (.syn "expected identifier")

/-- The "last path segment was target of use" block of `parse_use_segment`
(`use_parser.rs:146-151`): if the path ends in `self`, pop it and bind the
remaining path under its own trailing ident; otherwise bind the full path
under its trailing ident (which is popped from the working path).  Returns
the extended output list and the working path after the pops. -/
def push_use_target (path : Path) (output : List Use) : Except PErr (List Use × Path) :=
  let (wasSelf, p) := path.pop_self
  if wasSelf then do
    let name ← p.get_ident
    .ok (output ++ [⟨p, name⟩], p)
  else do
    let (name, p2) ← p.pop_ident
    .ok (output ++ [⟨p, name⟩], p2)

mutual

/-- The number of token trees in one tree, counting the contents of groups
(used only to pick a sufficient fuel for the parser loop below: every loop
iteration of `parse_use_segment` consumes at least one token of its own
input or descends into a group). -/
def tokenSize : TokenTree → Nat
  | .ident _ => 1
  | .punct _ _ => 1
  | .literal _ => 1
  | .group _ inner => 1 + tokensMeasure inner

/-- The number of token trees in a stream, groups' contents included. -/
def tokensMeasure : List TokenTree → Nat
  | [] => 0
  | t :: rest => tokenSize t + tokensMeasure rest

end

/-- `parse_use_segment` (`use_parser.rs:109-174`), with the loop of the
source written as fuelled recursion and the loop-local working `path`
made an explicit argument (initially a clone of `parent`).  Each step:
if the chain ends, stop; a brace group is recursed into with the current
path as the shared parent prefix and may only be the last construct of a
chain (else a `,` is required); otherwise one segment is parsed and
pushed, after which a `,` or chain end emits the current binding, `as`
emits an aliased binding, and otherwise a `::` is required and the chain
continues. -/
def parse_use_segment_fuel :
    Nat → Path → Path → List Use → Bool → List TokenTree →
      Except PErr (List Use × List TokenTree)
  | 0, _, _, _, _, _ => .error (.panic "out of fuel")
  | fuel + 1, parent, path, output, inner, input => do
    match ← chainEnd inner input with
    | true => .ok (output, input)
    | false =>
      match input with
      | .group .brace innerTs :: rest => do
        let (output2, _) ← parse_use_segment_fuel fuel path path output true innerTs
        match ← chainEnd inner rest with
        | true => .ok (output2, rest)
        | false =>
          match parseComma rest with
          | some rest2 => parse_use_segment_fuel fuel parent parent output2 inner rest2
          | Option.none => .error (.syn "expected comma")
      | _ => do
        let (seg, rest) ← IdentOrPounded.parse input
        let path1 := path.push seg
        match parseComma rest with
        | some rest2 => do
          let (output2, _path2) ← push_use_target path1 output
          match ← chainEnd inner rest2 with
          | true => .ok (output2, rest2)
          | false => parse_use_segment_fuel fuel parent parent output2 inner rest2
        | Option.none =>
          match ← chainEnd inner rest with
          | true => do
            let (output2, _path2) ← push_use_target path1 output
            .ok (output2, rest)
          | false =>
            match parseAs rest with
            | some rest2 => do
              let (wasSelf, path2) := path1.pop_self
              let (name, rest3) ← parseAliasIdent rest2
              let output2 := output ++ [⟨path2, name⟩]
              let _path3 ← if wasSelf then Except.ok path2 else path2.popE
              match ← chainEnd inner rest3 with
              | true => .ok (output2, rest3)
              | false =>
                match parseComma rest3 with
                | some rest4 => parse_use_segment_fuel fuel parent parent output2 inner rest4
                | Option.none => .error (.syn "expected comma")
            | Option.none => do
              let rest2 ← parseColon2 rest
              parse_use_segment_fuel fuel parent path1 output inner rest2

/-- `parse_use_segment` with its source signature: the working path starts
as a clone of `parent`, and the fuel is one more than the total number of
tokens of the input, which bounds the number of loop iterations. -/
def parse_use_segment (parent : Path) (input : List TokenTree) (output : List Use)
    (inner : Bool) : Except PErr (List Use × List TokenTree) :=
  parse_use_segment_fuel (tokensMeasure input + 1) parent parent output inner input

/-- `impl Parse for UseItem` (`use_parser.rs:176-191`): on empty input, no
bindings; otherwise the `use` keyword, an optional leading `::`, one
segment chain, and a terminating `;`.  Returns the bindings and the
remaining input after the `;`. -/
def UseItem.parse (input : List TokenTree) : Except PErr (List Use × List TokenTree) :=
  match input with
  | [] => .ok ([], [])
  | _ => do
    let rest ←
      match input with
      | .ident "use" :: r => Except.ok r
      | _ => Except.error (.syn "expected use")
    let rest :=
      match rest with
      | .punct ':' .joint :: .punct ':' _ :: r => r
      | _ => rest
    let (output, rest1) ← parse_use_segment [] rest [] false
    match rest1 with
    | .punct ';' _ :: r => .ok (output, r)
    | _ => .error (.syn "expected semicolon")

/-- No identifier anywhere in the stream (groups included) matches a
binding of the given symbol table. -/
def noBoundIdent (uses : List Use) : List TokenTree → Bool
  | [] => true
  | .ident s :: rest => (uses.find? (fun u => u.ident == s)).isNone && noBoundIdent uses rest
  | .group _ inner :: rest => noBoundIdent uses inner && noBoundIdent uses rest
  | _ :: rest => noBoundIdent uses rest
termination_by ts => sizeOf ts
decreasing_by all_goals (simp_wf <;> omega)

/-- No group with delimiter kind `none` occurs anywhere in the stream. -/
def noNoneGroup : List TokenTree → Bool
  | [] => true
  | .group .none _ :: _ => false
  | .group _ inner :: rest => noNoneGroup inner && noNoneGroup rest
  | _ :: rest => noNoneGroup rest
termination_by ts => sizeOf ts
decreasing_by all_goals (simp_wf <;> omega)

/-- Reduction of the `Except` monad's bind on a success value. -/
theorem except_bind_ok {ε α β : Type} (a : α) (f : α → Except ε β) :
    (Except.ok a : Except ε α) >>= f = f a := rfl

/-- Reduction of the `Except` monad's bind on an error value. -/
theorem except_bind_err {ε α β : Type} (e : ε) (f : α → Except ε β) :
    (Except.error e : Except ε α) >>= f = Except.error e := rfl

/-- A token that is neither a group, nor a colon, nor a `#`: the tokens for
which the rewriter's wildcard arm resets the state to `Normal`. -/
def plainTok : TokenTree → Bool
  | .ident _ => true
  | .literal _ => true
  | .punct c _ => !(c == ':') && !(c == '#')
  | .group _ _ => false

/-- `List.find?` returns the first hit of the left list over an append. -/
theorem find_first_append {α : Type} (q : α → Bool) (l₁ l₂ : List α) (u : α)
    (h : l₁.find? q = some u) : (l₁ ++ l₂).find? q = some u := by
  induction l₁ with
  | nil => simp [List.find?] at h
  | cons a l ih =>
    simp only [List.cons_append, List.find?]
    cases hq : q a with
    | true => simpa [List.find?, hq] using h
    | false =>
      rw [List.find?_cons_of_neg _ (by simp [hq])] at h
      exact ih h

/-- When no identifier at any depth matches a binding and no `None`-delimited
group occurs, the rewriter emits its input unchanged from any state. -/
theorem replace_in_group_id (uses : List Use) :
    ∀ (ts : List TokenTree), noBoundIdent uses ts = true → noNoneGroup ts = true →
      ∀ st, replace_in_group uses st ts = ts
  | [], _, _, st => by simp [replace_in_group]
  | .ident s :: rest, h1, h2, st => by
    simp only [noBoundIdent, Bool.and_eq_true, Option.isNone_iff_eq_none] at h1
    have ih := replace_in_group_id uses rest h1.2 (by simpa [noNoneGroup] using h2)
    cases st <;> simp [replace_in_group, h1.1, ih]
  | .punct c sp :: rest, h1, h2, st => by
    have ih := replace_in_group_id uses rest (by simpa [noBoundIdent] using h1)
      (by simpa [noNoneGroup] using h2)
    by_cases hc : c = ':'
    · subst hc; cases sp <;> simp [replace_in_group, ih]
    · by_cases hp : c = '#'
      · subst hp; simp [replace_in_group, ih]
      · cases st <;> simp [replace_in_group, hc, hp, ih]
  | .literal s :: rest, h1, h2, st => by
    have ih := replace_in_group_id uses rest (by simpa [noBoundIdent] using h1)
      (by simpa [noNoneGroup] using h2)
    cases st <;> simp [replace_in_group, ih]
  | .group d inner :: rest, h1, h2, st => by
    simp only [noBoundIdent, Bool.and_eq_true] at h1
    cases d with
    | none => simp [noNoneGroup] at h2
    | parenthesis =>
      simp only [noNoneGroup, Bool.and_eq_true] at h2
      have ih1 := replace_in_group_id uses inner h1.1 h2.1 .normal
      have ih2 := replace_in_group_id uses rest h1.2 h2.2 st
      simp [replace_in_group, ih1, ih2]
    | brace =>
      simp only [noNoneGroup, Bool.and_eq_true] at h2
      have ih1 := replace_in_group_id uses inner h1.1 h2.1 .normal
      have ih2 := replace_in_group_id uses rest h1.2 h2.2 st
      simp [replace_in_group, ih1, ih2]
    | bracket =>
      simp only [noNoneGroup, Bool.and_eq_true] at h2
      have ih1 := replace_in_group_id uses inner h1.1 h2.1 .normal
      have ih2 := replace_in_group_id uses rest h1.2 h2.2 st
      simp [replace_in_group, ih1, ih2]
termination_by ts => sizeOf ts
decreasing_by all_goals (simp_wf <;> omega)

/-- The specification's notion of replacing the bare occurrences of one
bound name: every occurrence of the named identifier scanned in `Normal`
state is replaced by the given rendered path and every other token is kept
verbatim, under the specification's state machine (a joint colon starts a
qualified path, `#` starts a placeholder splice, identifiers in non-normal
states pass through, groups are entered with a fresh `Normal` state and
re-wrapped, `None`-delimited groups are spliced).  Written from the spec's
words, to be compared with `replace_in_group` on a single binding. -/
def spec_replace_bare (name : String) (repl : List TokenTree) (st : RwState)
    (ts : List TokenTree) : List TokenTree :=
  match st, ts with
  | _, [] => []
  | .normal, .ident s :: rest =>
    (if name == s then repl else [.ident s]) ++ spec_replace_bare name repl .normal rest
  | _, .punct ':' .joint :: rest =>
    .punct ':' .joint :: spec_replace_bare name repl .path rest
  | st, .punct ':' sp :: rest => .punct ':' sp :: spec_replace_bare name repl st rest
  | _, .punct '#' sp :: rest => .punct '#' sp :: spec_replace_bare name repl .pound rest
  | st, .group d inner :: rest =>
    (match d with
     | .parenthesis => [.group .parenthesis (spec_replace_bare name repl .normal inner)]
     | .brace => [.group .brace (spec_replace_bare name repl .normal inner)]
     | .bracket => [.group .bracket (spec_replace_bare name repl .normal inner)]
     | .none => spec_replace_bare name repl .normal inner)
      ++ spec_replace_bare name repl st rest
  | _, .ident s :: rest => .ident s :: spec_replace_bare name repl .normal rest
  | _, .punct c sp :: rest => .punct c sp :: spec_replace_bare name repl .normal rest
  | _, .literal s :: rest => .literal s :: spec_replace_bare name repl .normal rest
termination_by sizeOf ts
decreasing_by all_goals (simp_wf <;> omega)

/-- On a single-binding symbol table the rewriter coincides with the
specification's replacement of the bare occurrences of the bound name by
the binding's rendered path. -/
theorem replace_single_binding (pth : Path) (nm : String) :
    ∀ (ts : List TokenTree) (st : RwState),
      replace_in_group [⟨pth, nm⟩] st ts = spec_replace_bare nm pth.toTokens st ts
  | [], st => by simp [replace_in_group, spec_replace_bare]
  | .ident s :: rest, st => by
    have ih := replace_single_binding pth nm rest .normal
    cases st with
    | normal =>
      cases hnm : nm == s with
      | true => simp [replace_in_group, spec_replace_bare, List.find?, hnm, ih]
      | false => simp [replace_in_group, spec_replace_bare, List.find?, hnm, ih]
    | path => simp [replace_in_group, spec_replace_bare, ih]
    | pound => simp [replace_in_group, spec_replace_bare, ih]
  | .punct c sp :: rest, st => by
    by_cases hc : c = ':'
    · subst hc
      cases sp with
      | joint =>
        have ih := replace_single_binding pth nm rest .path
        simp [replace_in_group, spec_replace_bare, ih]
      | alone =>
        have ih := replace_single_binding pth nm rest st
        simp [replace_in_group, spec_replace_bare, ih]
    · by_cases hp : c = '#'
      · subst hp
        have ih := replace_single_binding pth nm rest .pound
        simp [replace_in_group, spec_replace_bare, ih]
      · have ih := replace_single_binding pth nm rest .normal
        cases st <;> simp [replace_in_group, spec_replace_bare, hc, hp, ih]
  | .literal s :: rest, st => by
    have ih := replace_single_binding pth nm rest .normal
    cases st <;> simp [replace_in_group, spec_replace_bare, ih]
  | .group d inner :: rest, st => by
    have ih1 := replace_single_binding pth nm inner .normal
    have ih2 := replace_single_binding pth nm rest st
    cases d <;> simp [replace_in_group, spec_replace_bare, ih1, ih2]
termination_by ts => sizeOf ts
decreasing_by all_goals (simp_wf <;> omega)

/-- Claim C2: for every symbol table and every tail, an identifier that
immediately follows a double separator `::` (a joint-spaced colon and its
matching second colon) is emitted verbatim and never substituted, from any
incoming state; in particular, with a binding for `Name`, the tail
`other::Name(10)` is returned unchanged. -/
theorem c2_qualified_path_non_interference :
    (∀ (uses : List Use) (st : RwState) (s : String) (rest : List TokenTree),
      replace_in_group uses st
          (.punct ':' .joint :: .punct ':' .alone :: .ident s :: rest) =
        .punct ':' .joint :: .punct ':' .alone :: .ident s ::
          replace_in_group uses .normal rest) ∧
    (∀ pth : Path,
      replace_in_group [⟨pth, "Name"⟩] .normal
          [.ident "other", .punct ':' .joint, .punct ':' .alone, .ident "Name",
           .group .parenthesis [.literal "10"]] =
        [.ident "other", .punct ':' .joint, .punct ':' .alone, .ident "Name",
         .group .parenthesis [.literal "10"]]) := by
  constructor
  · intro uses st s rest
    simp [replace_in_group]
  · intro pth
    simp [replace_in_group, List.find?]

/-- Claim C4: a group at any position is recursed into with a fresh
`Normal` state and re-emitted with the identical delimiter (parenthesis,
brace, bracket), while a `None`-delimited group is emitted as its rewritten
inner sequence without surrounding delimiters; the outer scan continues
with the outer state, and substitution inside the group is exactly a
top-level run of the rewriter on the inner sequence. -/
theorem c4_group_fidelity (uses : List Use) (st : RwState) (inner rest : List TokenTree) :
    replace_in_group uses st (.group .parenthesis inner :: rest) =
      .group .parenthesis (replace_in_group uses .normal inner) ::
        replace_in_group uses st rest ∧
    replace_in_group uses st (.group .brace inner :: rest) =
      .group .brace (replace_in_group uses .normal inner) ::
        replace_in_group uses st rest ∧
    replace_in_group uses st (.group .bracket inner :: rest) =
      .group .bracket (replace_in_group uses .normal inner) ::
        replace_in_group uses st rest ∧
    replace_in_group uses st (.group .none inner :: rest) =
      replace_in_group uses .normal inner ++ replace_in_group uses st rest := by
  refine ⟨?_, ?_, ?_, ?_⟩ <;> simp [replace_in_group]

/-- Claim C3, counterexample: with a binding for `Name`, the tail
`#(Name)` is not emitted verbatim — the group following the `#` marker is
recursed into and the bound `Name` inside it is substituted, so the claim
that every kind of token following `#` passes through unrewritten is false. -/
theorem c3_counterexample :
    replace_in_group [⟨[.ident "a", .ident "Name"], "Name"⟩] .normal
        [.punct '#' .alone, .group .parenthesis [.ident "Name"]] =
      [.punct '#' .alone,
       .group .parenthesis
         [.punct ':' .joint, .punct ':' .alone, .ident "a",
          .punct ':' .joint, .punct ':' .alone, .ident "Name"]] ∧
    replace_in_group [⟨[.ident "a", .ident "Name"], "Name"⟩] .normal
        [.punct '#' .alone, .group .parenthesis [.ident "Name"]] ≠
      [.punct '#' .alone, .group .parenthesis [.ident "Name"]] := by
  constructor <;>
    simp [replace_in_group, List.find?, Path.toTokens, colon2,
      IdentOrPounded.toTokens, IdentOrPounded.is_ident]

/-- Claim C3, amended: in the `Pound` state (reached right after the
placeholder-splice marker `#`), a following identifier, literal, or
punctuation other than `:` and `#` is emitted verbatim with no symbol-table
lookup — even if its text coincides with a bound name — and the state
reverts to `Normal`; a following group, however, is recursed into and
rewritten exactly like any other group (with the outer state staying
`Pound`). -/
theorem c3_escape_pass_through (uses : List Use) (rest : List TokenTree) :
    (∀ t, plainTok t = true →
      replace_in_group uses .pound (t :: rest) =
        t :: replace_in_group uses .normal rest) ∧
    (∀ inner, replace_in_group uses .pound (.group .parenthesis inner :: rest) =
      .group .parenthesis (replace_in_group uses .normal inner) ::
        replace_in_group uses .pound rest) := by
  constructor
  · intro t ht
    cases t with
    | ident s => simp [replace_in_group]
    | literal s => simp [replace_in_group]
    | group d ts => simp [plainTok] at ht
    | punct c sp =>
      simp only [plainTok, Bool.and_eq_true, Bool.not_eq_true', beq_eq_false_iff_ne] at ht
      obtain ⟨hc, hp⟩ := ht
      cases sp <;> simp [replace_in_group, hc, hp]
  · intro inner
    simp [replace_in_group]

/-- Claim C3, witness for the amended theorem at a concrete input: an
identifier equal to the bound name `Name` right after `#` passes through. -/
theorem c3_escape_pass_through_witness :
    replace_in_group [⟨[.ident "a", .ident "Name"], "Name"⟩] .pound
        [.ident "Name"] =
      .ident "Name" ::
        replace_in_group [⟨[.ident "a", .ident "Name"], "Name"⟩] .normal [] :=
  (c3_escape_pass_through _ _).1 (.ident "Name") rfl

/-- Claim C8, counterexample: a tail consisting of a `None`-delimited group
around `x`, with an empty symbol table (so no identifier matches any
binding), is not returned token-for-token identical: the invisible group is
flattened to its contents. -/
theorem c8_counterexample :
    noBoundIdent [] [.group .none [.ident "x"]] = true ∧
    replace_in_group [] .normal [.group .none [.ident "x"]] ≠
      [.group .none [.ident "x"]] := by
  constructor
  · simp [noBoundIdent, List.find?]
  · simp [replace_in_group, List.find?]

/-- Claim C8, amended: for every symbol table and every tail in which no
identifier (at any nesting depth) matches a binding and no `None`-delimited
group occurs, the rewriter is the identity, preserving token order and
group structure. -/
theorem c8_idempotence_no_match (uses : List Use) (ts : List TokenTree)
    (h1 : noBoundIdent uses ts = true) (h2 : noNoneGroup ts = true) :
    replace_in_group uses .normal ts = ts :=
  replace_in_group_id uses ts h1 h2 .normal

/-- Claim C8, witness: a concrete no-match tail with nested delimited
groups is returned unchanged. -/
theorem c8_idempotence_no_match_witness :
    replace_in_group [⟨[.ident "a"], "a"⟩] .normal
        [.ident "b", .group .brace [.literal "1", .group .bracket [.ident "c"]]] =
      [.ident "b", .group .brace [.literal "1", .group .bracket [.ident "c"]]] :=
  c8_idempotence_no_match _ _ (by simp [noBoundIdent, List.find?])
    (by simp [noNoneGroup])

/-- Claim C5: the binding used for an identifier is the first match in
priority order — explicit (non-sentinel) declarations in declaration
order, then the prelude bindings — so whenever a name has an explicit
binding, that binding's path is the one substituted, whatever the prelude
binds. -/
theorem c5_priority (uses : List Use) (preludeOf : Bool → List Use) (s : String)
    (u : Use) (rest : List TokenTree)
    (h : (keptUses uses).find? (fun v => v.ident == s) = some u) :
    (QuoteUse.symbolTable uses preludeOf).find? (fun v => v.ident == s) = some u ∧
    replace_in_group (QuoteUse.symbolTable uses preludeOf) .normal (.ident s :: rest) =
      u.path.toTokens ++
        replace_in_group (QuoteUse.symbolTable uses preludeOf) .normal rest := by
  have hfind : (QuoteUse.symbolTable uses preludeOf).find? (fun v => v.ident == s)
      = some u := by
    simp only [QuoteUse.symbolTable]
    exact find_first_append _ _ _ _ h
  refine ⟨hfind, ?_⟩
  simp [replace_in_group, hfind]

/-- Claim C5, witness: an explicit binding of `Result` shadows a prelude
binding of `Result`. -/
theorem c5_priority_witness :
    (QuoteUse.symbolTable [⟨[.ident "anyhow", .ident "Result"], "Result"⟩]
        (fun _ => [⟨[.ident "std", .ident "Result"], "Result"⟩])).find?
        (fun v => v.ident == "Result") =
      some ⟨[.ident "anyhow", .ident "Result"], "Result"⟩ ∧
    replace_in_group
        (QuoteUse.symbolTable [⟨[.ident "anyhow", .ident "Result"], "Result"⟩]
          (fun _ => [⟨[.ident "std", .ident "Result"], "Result"⟩])) .normal
        [.ident "Result"] =
      Path.toTokens [.ident "anyhow", .ident "Result"] ++
        replace_in_group
          (QuoteUse.symbolTable [⟨[.ident "anyhow", .ident "Result"], "Result"⟩]
            (fun _ => [⟨[.ident "std", .ident "Result"], "Result"⟩])) .normal [] :=
  c5_priority _ _ _ _ _ (by simp [keptUses, List.find?])

/-- Claim C6: when the declarations include the suppress-all-prelude
sentinel (a binding whose bound name is `no_prelude`), no prelude binding
enters the symbol table and the sentinel itself contributes no binding —
the pipeline behaves exactly as rewriting with the filtered explicit
bindings alone, for every possible prelude; hence a tail whose identifiers
match no explicit binding passes through unsubstituted. -/
theorem c6_no_prelude_sentinel (uses : List Use) (preludeOf : Bool → List Use)
    (tail : List TokenTree)
    (h : uses.any (fun u => u.ident == "no_prelude") = true) :
    QuoteUse.symbolTable uses preludeOf = keptUses uses ∧
    QuoteUse.toTokens uses preludeOf tail =
      replace_in_group (keptUses uses) .normal tail ∧
    (noBoundIdent (keptUses uses) tail = true → noNoneGroup tail = true →
      QuoteUse.toTokens uses preludeOf tail = tail) := by
  have htab : QuoteUse.symbolTable uses preludeOf = keptUses uses := by
    simp [QuoteUse.symbolTable, h]
  refine ⟨htab, ?_, ?_⟩
  · simp [QuoteUse.toTokens, htab]
  · intro h1 h2
    rw [QuoteUse.toTokens, htab]
    exact replace_in_group_id _ _ h1 h2 .normal

/-- Claim C6, witness: with `use no_prelude;` declared, a prelude binding
`Option ↦ ::std::option::Option` never applies and the tail `Option(10)`
is left unsubstituted. -/
theorem c6_no_prelude_sentinel_witness :
    QuoteUse.symbolTable [⟨[.ident "no_prelude"], "no_prelude"⟩]
        (fun _ => [⟨[.ident "std", .ident "option", .ident "Option"], "Option"⟩]) =
      keptUses [⟨[.ident "no_prelude"], "no_prelude"⟩] ∧
    QuoteUse.toTokens [⟨[.ident "no_prelude"], "no_prelude"⟩]
        (fun _ => [⟨[.ident "std", .ident "option", .ident "Option"], "Option"⟩])
        [.ident "Option", .group .parenthesis [.literal "10"]] =
      replace_in_group (keptUses [⟨[.ident "no_prelude"], "no_prelude"⟩]) .normal
        [.ident "Option", .group .parenthesis [.literal "10"]] ∧
    (noBoundIdent (keptUses [⟨[.ident "no_prelude"], "no_prelude"⟩])
        [.ident "Option", .group .parenthesis [.literal "10"]] = true →
      noNoneGroup [.ident "Option", .group .parenthesis [.literal "10"]] = true →
      QuoteUse.toTokens [⟨[.ident "no_prelude"], "no_prelude"⟩]
          (fun _ => [⟨[.ident "std", .ident "option", .ident "Option"], "Option"⟩])
          [.ident "Option", .group .parenthesis [.literal "10"]] =
        [.ident "Option", .group .parenthesis [.literal "10"]]) :=
  c6_no_prelude_sentinel _ _ _ (by simp)

/-- Claim C10: sentinel recognition is keyed solely on a parsed binding's
bound name — a binding of any path under the name `no_prelude` is treated
as the suppress-all sentinel and dropped — and (provided the prelude
bundles themselves bind no sentinel name, as the shipped bundles do) no
binding named `no_prelude` or `no_std` is ever in the symbol table, so
those identifiers in the tail are never rewritten. -/
theorem c10_sentinel_by_bound_name (uses : List Use) (preludeOf : Bool → List Use)
    (pth : Path) (rest : List TokenTree)
    (hp : ∀ b u, u ∈ preludeOf b → u.ident ≠ "no_prelude" ∧ u.ident ≠ "no_std") :
    QuoteUse.symbolTable (⟨pth, "no_prelude"⟩ :: uses) preludeOf = keptUses uses ∧
    (QuoteUse.symbolTable uses preludeOf).find?
      (fun u => u.ident == "no_prelude") = Option.none ∧
    (QuoteUse.symbolTable uses preludeOf).find?
      (fun u => u.ident == "no_std") = Option.none ∧
    replace_in_group (QuoteUse.symbolTable uses preludeOf) .normal
        (.ident "no_prelude" :: rest) =
      .ident "no_prelude" ::
        replace_in_group (QuoteUse.symbolTable uses preludeOf) .normal rest ∧
    replace_in_group (QuoteUse.symbolTable uses preludeOf) .normal
        (.ident "no_std" :: rest) =
      .ident "no_std" ::
        replace_in_group (QuoteUse.symbolTable uses preludeOf) .normal rest := by
  have hnone : ∀ s : String, s = "no_prelude" ∨ s = "no_std" →
      (QuoteUse.symbolTable uses preludeOf).find? (fun u => u.ident == s)
        = Option.none := by
    intro s hs
    rw [List.find?_eq_none]
    intro u hu
    simp only [QuoteUse.symbolTable, List.mem_append] at hu
    rcases hu with hu | hu
    · have := (List.mem_filter.mp hu).2
      simp only [Bool.and_eq_true, Bool.not_eq_true', beq_eq_false_iff_ne] at this
      rcases hs with rfl | rfl
      · simp [this.1]
      · simp [this.2]
    · have hmem : u ∈ preludeOf (!uses.any fun u => u.ident == "no_std") := by
        by_cases hc : (!uses.any fun u => u.ident == "no_prelude") = true
        · simpa [hc] using hu
        · simp [hc] at hu
      have := hp _ _ hmem
      rcases hs with rfl | rfl
      · simp [this.1]
      · simp [this.2]
  have h1 := hnone "no_prelude" (Or.inl rfl)
  have h2 := hnone "no_std" (Or.inr rfl)
  refine ⟨?_, h1, h2, ?_, ?_⟩
  · simp [QuoteUse.symbolTable, keptUses]
  · simp [replace_in_group, h1]
  · simp [replace_in_group, h2]

/-- Claim C1: a single declaration `use a::b::Name;` whose segments are all
literal names (the trailing one not being the reserved `self`) parses to
exactly one binding `Name ↦ [a, b, Name]`; the binding renders with a
leading root separator (the first segment is a name) as `::a::b::Name`;
and on the resulting single-binding table the rewriter maps every tail to
the tail with exactly the bare (`Normal`-state) occurrences of `Name`
replaced by that rendering. -/
theorem c1_binding_correctness (a b n : String) (tail : List TokenTree)
    (h : n ≠ "self") :
    UseItem.parse
        [.ident "use", .ident a, .punct ':' .joint, .punct ':' .alone, .ident b,
         .punct ':' .joint, .punct ':' .alone, .ident n, .punct ';' .alone] =
      .ok ([⟨[.ident a, .ident b, .ident n], n⟩], []) ∧
    Path.toTokens [.ident a, .ident b, .ident n] =
      [.punct ':' .joint, .punct ':' .alone, .ident a,
       .punct ':' .joint, .punct ':' .alone, .ident b,
       .punct ':' .joint, .punct ':' .alone, .ident n] ∧
    replace_in_group [⟨[.ident a, .ident b, .ident n], n⟩] .normal tail =
      spec_replace_bare n (Path.toTokens [.ident a, .ident b, .ident n]) .normal tail := by
  have hb : (n == "self") = false := beq_eq_false_iff_ne.mpr h
  refine ⟨?_, ?_, ?_⟩
  · have hpush : push_use_target [.ident a, .ident b, .ident n] [] =
        .ok ([⟨[.ident a, .ident b, .ident n], n⟩], [.ident a, .ident b]) := by
      show push_use_target ([.ident a, .ident b] ++ [.ident n]) [] = _
      simp [push_use_target, Path.pop_self, Path.pop_ident, List.getLast?_concat,
        List.dropLast_concat, IdentOrPounded.is_self, hb, except_bind_ok]
    have h1 : UseItem.parse
        [.ident "use", .ident a, .punct ':' .joint, .punct ':' .alone, .ident b,
         .punct ':' .joint, .punct ':' .alone, .ident n, .punct ';' .alone] =
      Except.bind
        (Except.bind (push_use_target [.ident a, .ident b, .ident n] [])
          (fun r => Except.ok (r.1, ([.punct ';' .alone] : List TokenTree))))
        (fun r =>
          match r.2 with
          | .punct ';' _ :: rr => Except.ok (r.1, rr)
          | _ => Except.error (.syn "expected semicolon")) := rfl
    rw [h1, hpush]
    rfl
  · simp [Path.toTokens, colon2, IdentOrPounded.toTokens, IdentOrPounded.is_ident]
  · exact replace_single_binding _ _ tail .normal

/-- Claim C1, witness: `use a::b::Name;` with the tail `Name(10)`. -/
theorem c1_binding_correctness_witness :
    UseItem.parse
        [.ident "use", .ident "a", .punct ':' .joint, .punct ':' .alone, .ident "b",
         .punct ':' .joint, .punct ':' .alone, .ident "Name", .punct ';' .alone] =
      .ok ([⟨[.ident "a", .ident "b", .ident "Name"], "Name"⟩], []) ∧
    Path.toTokens [.ident "a", .ident "b", .ident "Name"] =
      [.punct ':' .joint, .punct ':' .alone, .ident "a",
       .punct ':' .joint, .punct ':' .alone, .ident "b",
       .punct ':' .joint, .punct ':' .alone, .ident "Name"] ∧
    replace_in_group [⟨[.ident "a", .ident "b", .ident "Name"], "Name"⟩] .normal
        [.ident "Name", .group .parenthesis [.literal "10"]] =
      spec_replace_bare "Name"
        (Path.toTokens [.ident "a", .ident "b", .ident "Name"]) .normal
        [.ident "Name", .group .parenthesis [.literal "10"]] :=
  c1_binding_correctness "a" "b" "Name"
    [.ident "Name", .group .parenthesis [.literal "10"]] (by decide)

/-- Claim C7: `use a::b::{self, X};` parses to the bindings `b ↦ ::a::b`
and `X ↦ ::a::b::X` (in that order), and the tail `b::f()` rewrites to
`::a::b::f()`; `use a::b::{self as c};` parses to the single binding
`c ↦ ::a::b`, and the tail `c::f()` rewrites to `::a::b::f()`. -/
theorem c7_self_reference :
    UseItem.parse
        [.ident "use", .ident "a", .punct ':' .joint, .punct ':' .alone, .ident "b",
         .punct ':' .joint, .punct ':' .alone,
         .group .brace [.ident "self", .punct ',' .alone, .ident "X"],
         .punct ';' .alone] =
      .ok ([⟨[.ident "a", .ident "b"], "b"⟩,
            ⟨[.ident "a", .ident "b", .ident "X"], "X"⟩], []) ∧
    replace_in_group
        [⟨[.ident "a", .ident "b"], "b"⟩,
         ⟨[.ident "a", .ident "b", .ident "X"], "X"⟩] .normal
        [.ident "b", .punct ':' .joint, .punct ':' .alone, .ident "f",
         .group .parenthesis []] =
      [.punct ':' .joint, .punct ':' .alone, .ident "a",
       .punct ':' .joint, .punct ':' .alone, .ident "b",
       .punct ':' .joint, .punct ':' .alone, .ident "f",
       .group .parenthesis []] ∧
    UseItem.parse
        [.ident "use", .ident "a", .punct ':' .joint, .punct ':' .alone, .ident "b",
         .punct ':' .joint, .punct ':' .alone,
         .group .brace [.ident "self", .ident "as", .ident "c"],
         .punct ';' .alone] =
      .ok ([⟨[.ident "a", .ident "b"], "c"⟩], []) ∧
    replace_in_group [⟨[.ident "a", .ident "b"], "c"⟩] .normal
        [.ident "c", .punct ':' .joint, .punct ':' .alone, .ident "f",
         .group .parenthesis []] =
      [.punct ':' .joint, .punct ':' .alone, .ident "a",
       .punct ':' .joint, .punct ':' .alone, .ident "b",
       .punct ':' .joint, .punct ':' .alone, .ident "f",
       .group .parenthesis []] := by
  refine ⟨rfl, ?_, rfl, ?_⟩ <;>
    simp [replace_in_group, List.find?, Path.toTokens, colon2,
      IdentOrPounded.toTokens, IdentOrPounded.is_ident]

/-- Claim C9, behaviour of the code at the claimed failing inputs: the
declaration `use self;` does not fail with a reported syntax error — it
hits the `expect("path should contain a segment")` inside
`Path::get_ident`, i.e. an internal panic; and `use self as x;` does not
fail at all: it produces a binding of the alias `x` to an empty path. -/
theorem c9_self_at_root_behaviour :
    UseItem.parse [.ident "use", .ident "self", .punct ';' .alone] =
      .error (.panic "path should contain a segment") ∧
    UseItem.parse
        [.ident "use", .ident "self", .ident "as", .ident "x", .punct ';' .alone] =
      .ok ([⟨[], "x"⟩], []) :=
  ⟨rfl, rfl⟩

/-- Claim C10, witness: `use foo::no_prelude;` (a sentinel with a
non-trivial path) suppresses the prelude, and the identifiers `no_prelude`
and `no_std` in a tail are never rewritten. -/
theorem c10_sentinel_by_bound_name_witness :
    QuoteUse.symbolTable [⟨[.ident "foo", .ident "no_prelude"], "no_prelude"⟩]
        (fun _ => []) = keptUses [] ∧
    (QuoteUse.symbolTable [] (fun _ => [])).find?
      (fun u => u.ident == "no_prelude") = Option.none ∧
    (QuoteUse.symbolTable [] (fun _ => [])).find?
      (fun u => u.ident == "no_std") = Option.none ∧
    replace_in_group (QuoteUse.symbolTable [] (fun _ => [])) .normal
        [.ident "no_prelude"] =
      .ident "no_prelude" ::
        replace_in_group (QuoteUse.symbolTable [] (fun _ => [])) .normal [] ∧
    replace_in_group (QuoteUse.symbolTable [] (fun _ => [])) .normal
        [.ident "no_std"] =
      .ident "no_std" ::
        replace_in_group (QuoteUse.symbolTable [] (fun _ => [])) .normal [] :=
  c10_sentinel_by_bound_name [] (fun _ => [])
    [.ident "foo", .ident "no_prelude"] [] (by simp)

end QU
